import Mathlib

/-!
Verification of the rclone specification against the repository's code.

The repository exposes the CLI entrypoint (`rclone.go`), the `dedupe`
subcommand wiring, and the mount test harness.  The core engines
(`fs.Deduplicate`, the sync engine, the transfer pipeline, the `Lister`)
are declared and called from the visible files but their bodies are not
part of the source tree; those parts are modelled from the spec, as noted
on each definition.
-/

namespace Rclone

/-! ## Deduplication (spec §4.6)

Objects in a `DupeGroup` share a basename; the attributes that the dedupe
engine consults are size, modification time and the MD5 digest. -/

/-- An object as seen by the dedupe engine: basename, size, modification
time and MD5 digest (spec §3, Object; §4.6 step 3 requires MD5). -/
structure DObj where
  name : String
  size : Nat
  modTime : Nat
  md5 : String
deriving DecidableEq, Repr

/-- Modelled from the spec: the missing `fs.Deduplicate` silent-identical
step (§4.6 steps 3–4).  Within a DupeGroup, partition by MD5 and for each
partition delete all but the first encountered object, without a prompt.
Processing the group front to back, the head object is kept and every
later object with the same MD5 is deleted. -/
def dedupeIdentical : List DObj → List DObj
  | [] => []
  | o :: rest => o :: dedupeIdentical (rest.filter (fun p => p.md5 != o.md5))
termination_by l => l.length
decreasing_by
  simp only [List.length_cons]
  exact Nat.lt_succ_of_le (List.length_filter_le _ _)

/-- Every survivor of the silent-identical step was in the input group. -/
theorem mem_of_mem_dedupeIdentical :
    ∀ (g : List DObj) (x : DObj), x ∈ dedupeIdentical g → x ∈ g := by
  intro g
  induction g using dedupeIdentical.induct with
  | case1 => intro x hx; simp [dedupeIdentical] at hx
  | case2 o rest ih =>
    intro x hx
    rw [dedupeIdentical] at hx
    rcases List.mem_cons.mp hx with h | h
    · exact h ▸ List.mem_cons_self _ _
    · exact List.mem_cons_of_mem _ (List.mem_of_mem_filter (ih x h))

/-- C1: after the silent-identical step of `Deduplicate`, no two surviving
objects in the group share an MD5 digest; the survivors come from the
group, and every MD5 present in the group keeps exactly one
representative.  The step is the same in every mode and consults no
prompt (the model takes no prompt input). -/
theorem dedupe_silent_identical_md5_distinct (g : List DObj) :
    (dedupeIdentical g).Pairwise (fun a b => a.md5 ≠ b.md5) ∧
    (∀ x ∈ dedupeIdentical g, x ∈ g) ∧
    (∀ x ∈ g, ∃ y ∈ dedupeIdentical g, y.md5 = x.md5) := by
  refine ⟨?_, fun x hx => mem_of_mem_dedupeIdentical g x hx, ?_⟩
  · induction g using dedupeIdentical.induct with
    | case1 => simp [dedupeIdentical]
    | case2 o rest ih =>
      rw [dedupeIdentical]
      refine List.pairwise_cons.mpr ⟨?_, ih⟩
      intro b hb
      have hbf := mem_of_mem_dedupeIdentical _ b hb
      have := List.of_mem_filter hbf
      simp only [bne_iff_ne, ne_eq, decide_eq_true_eq] at this
      exact fun h => this h.symm
  · induction g using dedupeIdentical.induct with
    | case1 => intro x hx; simp at hx
    | case2 o rest ih =>
      intro x hx
      rw [dedupeIdentical]
      rcases List.mem_cons.mp hx with h | h
      · exact ⟨o, List.mem_cons_self _ _, h ▸ rfl⟩
      · by_cases hmd : x.md5 = o.md5
        · exact ⟨o, List.mem_cons_self _ _, hmd.symm⟩
        · have hxf : x ∈ rest.filter (fun p => p.md5 != o.md5) := by
            refine List.mem_filter.mpr ⟨h, ?_⟩
            simp [hmd]
          obtain ⟨y, hy, hymd⟩ := ih x hxf
          exact ⟨y, List.mem_cons_of_mem _ hy, hymd⟩

/-! ## Dedupe rename mode (spec §4.6 step 5, `rename`) -/

/-- The renamed form of a file: `stem-N.ext` (spec §4.6; the command help
shows `file.jpg` becoming `file-1.jpg`). -/
def renameName (stem ext : String) (n : Nat) : String :=
  stem ++ "-" ++ toString n ++ "." ++ ext

/-- Modelled from the spec: the missing rename-mode collision check of
`fs.Deduplicate` — starting from counter value `n`, advance the counter
until `stem-N.ext` does not collide with an existing name.  `fuel` bounds
the search so the definition is executable; the engine calls it with more
fuel than there are taken names. -/
def pickName (taken : List String) (stem ext : String) : Nat → Nat → Option Nat
  | _, 0 => none
  | n, fuel + 1 =>
    if renameName stem ext n ∈ taken then pickName taken stem ext (n + 1) fuel
    else some n

/-- Modelled from the spec: the missing rename-mode loop of
`fs.Deduplicate` (§4.6 step 5, `rename`) — keep all surviving members and
rename each to `stem-N.ext` with an ascending counter starting from `n`,
skipping names that collide with already-taken names; each chosen name
joins the taken set.  Returns the chosen counter values. -/
def renameGroup (stem ext : String) : List DObj → List String → Nat → Option (List Nat)
  | [], _, _ => some []
  | _ :: rest, taken, n =>
    match pickName taken stem ext n (taken.length + 1) with
    | none => none
    | some m =>
      match renameGroup stem ext rest (renameName stem ext m :: taken) (m + 1) with
      | none => none
      | some ms => some (m :: ms)

/-- A counter value returned by `pickName` is at least the starting value
and its name is free of collisions. -/
theorem pickName_spec (taken : List String) (stem ext : String) :
    ∀ (fuel n m : Nat), pickName taken stem ext n fuel = some m →
      renameName stem ext m ∉ taken ∧ n ≤ m := by
  intro fuel
  induction fuel with
  | zero => intro n m h; simp [pickName] at h
  | succ fuel ih =>
    intro n m h
    rw [pickName] at h
    split at h
    next hin =>
      obtain ⟨hfree, hle⟩ := ih (n + 1) m h
      exact ⟨hfree, Nat.le_of_succ_le hle⟩
    next hnot =>
      cases h
      exact ⟨hnot, Nat.le_refl _⟩

/-- Main invariant of the rename loop: the chosen names extend the taken
set without duplicates, and the counter values ascend from the start. -/
theorem renameGroup_spec (stem ext : String) :
    ∀ (grp : List DObj) (taken : List String) (n : Nat) (ns : List Nat),
      taken.Nodup → renameGroup stem ext grp taken n = some ns →
      (ns.map (renameName stem ext) ++ taken).Nodup ∧
      ns.Chain' (· < ·) ∧ (∀ k ∈ ns, n ≤ k) := by
  intro grp
  induction grp with
  | nil =>
    intro taken n ns hnd h
    cases h
    exact ⟨hnd, List.chain'_nil, by simp⟩
  | cons o rest ih =>
    intro taken n ns hnd h
    rw [renameGroup] at h
    cases hp : pickName taken stem ext n (taken.length + 1) with
    | none => simp [hp] at h
    | some m =>
      simp only [hp] at h
      obtain ⟨hfree, hnm⟩ := pickName_spec taken stem ext _ _ _ hp
      cases hr : renameGroup stem ext rest (renameName stem ext m :: taken) (m + 1) with
      | none => simp [hr] at h
      | some ms =>
        simp only [hr, Option.some.injEq] at h
        subst h
        have hnd' : (renameName stem ext m :: taken).Nodup :=
          List.nodup_cons.mpr ⟨hfree, hnd⟩
        obtain ⟨ihnd, ihchain, ihge⟩ := ih _ _ _ hnd' hr
        refine ⟨?_, ?_, ?_⟩
        · have hperm :
              (ms.map (renameName stem ext) ++ renameName stem ext m :: taken).Perm
                (renameName stem ext m :: (ms.map (renameName stem ext) ++ taken)) :=
            List.perm_middle
          have := hperm.nodup ihnd
          simpa using this
        · refine List.chain'_cons'.mpr ⟨?_, ihchain⟩
          intro b hb
          exact Nat.lt_of_succ_le (ihge b (List.mem_of_mem_head? hb))
        · intro k hk
          rcases List.mem_cons.mp hk with h | h
          · exact h ▸ hnm
          · exact Nat.le_trans hnm (Nat.le_of_succ_le (ihge k h))

/-- C2: when rename mode resolves a DupeGroup, each surviving member gets
a name `stem-N.ext` with the counter values strictly ascending and
starting at 1 or later, no chosen name collides with a pre-existing name
or another chosen name, and afterwards all names in the parent directory
are distinct. -/
theorem dedupe_rename_unique (stem ext : String) (grp : List DObj)
    (existing : List String) (ns : List Nat)
    (hnd : existing.Nodup)
    (h : renameGroup stem ext grp existing 1 = some ns) :
    (ns.map (renameName stem ext) ++ existing).Nodup ∧
    ns.Chain' (· < ·) ∧ (∀ k ∈ ns, 1 ≤ k) :=
  renameGroup_spec stem ext grp existing 1 ns hnd h

/-- The three-way duplicate group from the command's worked example:
`two.txt` with three distinct hashes, resolved by rename mode. -/
def exampleGroup : List DObj :=
  [⟨"two.txt", 564374, 52, "7594e7dc9fc28f727c42ee3e0749de81"⟩,
   ⟨"two.txt", 6048320, 46, "1eedaa9fe86fd4b8632e2ac549403b36"⟩,
   ⟨"two.txt", 1744073, 38, "851957f7fb6f0bc4ce76be966d336802"⟩]

/-- Witness for C2 on the worked example of the command help: the three
members of the `two.txt` group are renamed `two-1.txt`, `two-2.txt`,
`two-3.txt` with no collisions. -/
theorem dedupe_rename_unique_witness :
    (["two.txt"] : List String).Nodup ∧
    renameGroup "two" "txt" exampleGroup ["two.txt"] 1 = some [1, 2, 3] ∧
    (([1, 2, 3].map (renameName "two" "txt") ++ ["two.txt"]).Nodup ∧
      ([1, 2, 3] : List Nat).Chain' (· < ·) ∧ (∀ k ∈ ([1, 2, 3] : List Nat), 1 ≤ k)) :=
  ⟨by decide, by decide,
    dedupe_rename_unique "two" "txt" exampleGroup ["two.txt"] [1, 2, 3]
      (by decide) (by decide)⟩

/-! ## Sync / reconciliation (spec §4.5)

A tree is a map from relative path to the attributes the reconciler
consults: size, modification time, and the hash under a common algorithm
when one exists (`none` when the two sides share no algorithm). -/

/-- The per-object record the reconciliation verdict reads (spec §3 and
§4.5 step 2): size, modification time, and the digest under a common hash
algorithm when both sides support one. -/
structure FileRec where
  size : Nat
  modTime : Int
  hash : Option String
deriving DecidableEq, Repr

/-- Modelled from the spec: the missing equality verdict of the sync
engine (§4.5 step 2, present on both): (i) if a common hash exists, hash
equality wins; (ii) else size equality and modification times within the
larger of the two precisions. -/
def recEqual (precSrc precDst : Nat) (s d : FileRec) : Bool :=
  match s.hash, d.hash with
  | some hs, some hd => hs == hd
  | _, _ => s.size == d.size &&
      decide ((s.modTime - d.modTime).natAbs ≤ max precSrc precDst)

/-- Modelled from the spec: whether the sync engine schedules a transfer
at path `p` (§4.5 step 2): present only on src, or present on both and
not equal. -/
def needsTransfer (pS pD : Nat) (src dst : String → Option FileRec) (p : String) : Bool :=
  match src p, dst p with
  | some s, some d => !(recEqual pS pD s d)
  | some _, none => true
  | none, _ => false

/-- Modelled from the spec: whether sync mode schedules a delete at path
`p` (§4.5 step 2): present only on dst. -/
def needsDelete (src dst : String → Option FileRec) (p : String) : Bool :=
  match src p, dst p with
  | none, some _ => true
  | _, _ => false

/-- Modelled from the spec: the destination tree after `sync(S,D)` — a
scheduled transfer replaces the destination record with the source's
(content copied, modification time set, §4.4 step 4); an equal pair is a
skip; a dst-only path is deleted. -/
def syncResult (pS pD : Nat) (src dst : String → Option FileRec) (p : String) : Option FileRec :=
  match src p, dst p with
  | some s, some d => if recEqual pS pD s d then some d else some s
  | some s, none => some s
  | none, _ => none

/-- The equality verdict accepts a record against itself. -/
theorem recEqual_refl (pS pD : Nat) (s : FileRec) : recEqual pS pD s s = true := by
  cases h : s.hash <;> simp [recEqual, h]

/-- C3: sync is idempotent — after one run of `sync(S,D)`, a second run
over the same source and the resulting destination schedules no transfer
and no delete at any path. -/
theorem sync_idempotent (pS pD : Nat) (src dst : String → Option FileRec) (p : String) :
    needsTransfer pS pD src (syncResult pS pD src dst) p = false ∧
    needsDelete src (syncResult pS pD src dst) p = false := by
  cases hs : src p with
  | none => cases hd : dst p <;> simp [needsTransfer, needsDelete, syncResult, hs]
  | some s =>
    cases hd : dst p with
    | none => simp [needsTransfer, needsDelete, syncResult, hs, hd, recEqual_refl]
    | some d =>
      by_cases he : recEqual pS pD s d
      · simp [needsTransfer, needsDelete, syncResult, hs, hd, he]
      · simp [needsTransfer, needsDelete, syncResult, hs, hd, he, recEqual_refl]

/-! ## Move (spec §4.5 move mode, §8.3)

In move mode dst-only paths are kept (no delete verdict applies), equal
pairs are skipped, and a source object is deleted only after its transfer
succeeded (§4.5 steps 2–4). -/

/-- Modelled from the spec: the destination tree after `move(S,D)` (§4.5
with mode = move): src-only and differing paths receive the source
record; an equal pair is a skip; dst-only paths are kept. -/
def moveResultDst (pS pD : Nat) (src dst : String → Option FileRec) (p : String) :
    Option FileRec :=
  match src p, dst p with
  | some s, some d => if recEqual pS pD s d then some d else some s
  | some s, none => some s
  | none, d => d

/-- Modelled from the spec: the source tree after `move(S,D)` (§4.5 step
3): a source object is deleted after its transfer succeeds; a skipped
(equal) pair schedules no transfer, so its source object is not deleted. -/
def moveResultSrc (pS pD : Nat) (src dst : String → Option FileRec) (p : String) :
    Option FileRec :=
  match src p, dst p with
  | some s, some d => if recEqual pS pD s d then some s else none
  | some _, none => none
  | none, _ => none

/-- The multiset of hash values a tree holds at a path (at most one). -/
def hashesAt (t : String → Option FileRec) (p : String) : List (Option String) :=
  match t p with
  | some r => [r.hash]
  | none => []

/-- Source tree of the shared-path counterexample: one object at `a` with
hash `h2`. -/
def cexSrcTree : String → Option FileRec :=
  fun p => if p = "a" then some ⟨1, 0, some "h2"⟩ else none

/-- Destination tree of the shared-path counterexample: one object at `a`
with hash `h1`. -/
def cexDstTree : String → Option FileRec :=
  fun p => if p = "a" then some ⟨1, 0, some "h1"⟩ else none

/-- The everywhere-empty tree. -/
def emptyTree : String → Option FileRec := fun _ => none

/-- Counterexample to C4 as stated: with `S = {a ↦ h2}` and
`D = {a ↦ h1}`, the pair at `a` differs, the transfer overwrites `D`'s
object, and the multiset of hashes at `a` before (`[h2, h1]`) does not
equal the multiset after (`[h2]`): move does not conserve the combined
multiset when a path is present on both sides. -/
theorem move_conservation_cex :
    ¬ ((hashesAt cexSrcTree "a" ++ hashesAt cexDstTree "a").Perm
        (hashesAt (moveResultDst 1 1 cexSrcTree cexDstTree) "a")) := by
  decide

/-- C4 (amended): for every path present in at most one of S and D,
`move(S,D)` conserves the multiset of hashes at that path — the hashes in
S and D together before equal those in D after — and S holds nothing at
that path afterwards. -/
theorem move_conservation_disjoint (pS pD : Nat) (src dst : String → Option FileRec)
    (p : String) (h : src p = none ∨ dst p = none) :
    (hashesAt src p ++ hashesAt dst p).Perm (hashesAt (moveResultDst pS pD src dst) p) ∧
    moveResultSrc pS pD src dst p = none := by
  rcases h with h | h
  · cases hd : dst p <;>
      simp [hashesAt, moveResultDst, moveResultSrc, h, hd, List.Perm.refl]
  · cases hs : src p <;>
      simp [hashesAt, moveResultDst, moveResultSrc, h, hs, List.Perm.refl]

/-- Witness for the amended C4 at a concrete disjoint pair: `S = {a ↦ h2}`
and `D` empty. -/
theorem move_conservation_disjoint_witness :
    (cexSrcTree "a" = none ∨ emptyTree "a" = none) ∧
    ((hashesAt cexSrcTree "a" ++ hashesAt emptyTree "a").Perm
        (hashesAt (moveResultDst 1 1 cexSrcTree emptyTree) "a") ∧
      moveResultSrc 1 1 cexSrcTree emptyTree "a" = none) :=
  ⟨Or.inr rfl, move_conservation_disjoint 1 1 cexSrcTree emptyTree "a" (Or.inr rfl)⟩

/-! ## Transfer retries (spec §4.4 step 5, §4.7, §8.7) -/

/-- Classification of one attempt's result (spec §4.4 step 5): success,
a retryable failure (`transient` or `rateLimited`), or `fatal`. -/
inductive Outcome
  | success
  | transient
  | rateLimited
  | fatal
deriving DecidableEq, Repr

/-- The default of `--low-level-retries` (src/cmd/mount/fs_test.go line 33
and spec §4.4 step 5). -/
def lowLevelRetriesDefault : Nat := 10

/-- Modelled from the spec: the missing per-Transfer retry loop of the
transfer pipeline (§4.4 step 5) — count the attempts a Transfer makes
against a stream of attempt outcomes, with `budget` attempts allowed in
total.  A success or a fatal failure ends the Transfer; a transient or
rate-limited failure re-queues it while budget remains. -/
def attemptTransfer : Nat → List Outcome → Nat
  | _, [] => 0
  | 0, _ :: _ => 0
  | Nat.succ b, o :: rest =>
    match o with
    | .success => 1
    | .fatal => 1
    | .transient => 1 + attemptTransfer b rest
    | .rateLimited => 1 + attemptTransfer b rest

/-- The attempts a Transfer makes under the configured
`low_level_retries`: per §8.7 the per-Transfer bound is
`low_level_retries + 1` attempts. -/
def transferAttempts (lowLevelRetries : Nat) (outcomes : List Outcome) : Nat :=
  attemptTransfer (lowLevelRetries + 1) outcomes

/-- The retry loop never uses more attempts than its budget. -/
theorem attemptTransfer_le :
    ∀ (os : List Outcome) (b : Nat), attemptTransfer b os ≤ b := by
  intro os
  induction os with
  | nil => intro b; simp [attemptTransfer]
  | cons o rest ih =>
    intro b
    cases b with
    | zero => simp [attemptTransfer]
    | succ b =>
      cases o <;> simp [attemptTransfer] <;>
        · rw [Nat.add_comm 1 (attemptTransfer b rest)]
          exact Nat.succ_le_succ (ih b)

/-- After a fatal failure the loop stops: the outcomes beyond the fatal
one are never consulted. -/
theorem attemptTransfer_fatal_stops :
    ∀ (pre : List Outcome) (b : Nat) (rest : List Outcome),
      attemptTransfer b (pre ++ Outcome.fatal :: rest) =
        attemptTransfer b (pre ++ [Outcome.fatal]) := by
  intro pre
  induction pre with
  | nil =>
    intro b rest
    cases b <;> simp [attemptTransfer]
  | cons o pre ih =>
    intro b rest
    cases b with
    | zero => simp [attemptTransfer]
    | succ b => cases o <;> simp [attemptTransfer, ih]

/-- C5: a Transfer's attempts never exceed `low_level_retries + 1` (with
the default 10, never more than 11), and a fatal failure is never
re-queued — the attempt count does not depend on anything after the
first fatal outcome. -/
theorem transfer_retry_bound :
    (∀ (llr : Nat) (os : List Outcome), transferAttempts llr os ≤ llr + 1) ∧
    (∀ os : List Outcome, transferAttempts lowLevelRetriesDefault os ≤ 11) ∧
    (∀ (b : Nat) (pre rest : List Outcome),
      attemptTransfer b (pre ++ Outcome.fatal :: rest) =
        attemptTransfer b (pre ++ [Outcome.fatal])) :=
  ⟨fun llr os => attemptTransfer_le os (llr + 1),
   fun os => attemptTransfer_le os 11,
   fun b pre rest => attemptTransfer_fatal_stops pre b rest⟩

/-! ## Listing a missing directory (spec §4.2) -/

/-- The error taxonomy of the backend contract (spec §4.1). -/
inductive ErrKind
  | notFound
  | dirNotFound
  | dirNotEmpty
  | permissionDenied
  | rateLimited
  | transient
  | fatal
  | unsupported
deriving DecidableEq, Repr

/-- A remote as the Lister sees it: the directories that exist and the
objects, each `(parent directory, name, size)`. -/
structure RemoteState where
  dirs : List String
  objs : List (String × String × Nat)
deriving DecidableEq, Repr

/-- Modelled from the spec: the missing
`fs.NewLister().SetLevel(1).Start(fs, path).GetAll()` (§4.2) — the direct
children of `path` when the directory exists, and the `DirNotFound`
sentinel when it does not. -/
def listerGetAll (st : RemoteState) (path : String) :
    Except ErrKind (List (String × Nat)) :=
  if path ∈ st.dirs then
    .ok ((st.objs.filter (fun o => o.1 == path)).map (fun o => o.2))
  else .error .dirNotFound

/-- The error handling of src/cmd/mount/fs_test.go `readRemote` (lines
192–197): a `DirNotFound` sentinel is detected with an equality test and
treated as an empty listing; any other error fails the caller (`none`);
a successful listing is returned as-is. -/
def readRemoteOfResult (r : Except ErrKind (List (String × Nat))) :
    Option (List (String × Nat)) :=
  match r with
  | .error .dirNotFound => some []
  | .error _ => none
  | .ok l => some l

/-- The caller from src/cmd/mount/fs_test.go `readRemote`: start the
Lister and handle its result. -/
def readRemote (st : RemoteState) (path : String) : Option (List (String × Nat)) :=
  readRemoteOfResult (listerGetAll st path)

/-- C6: starting the Lister at a path whose directory does not exist
produces the `DirNotFound` sentinel and no items; the caller detects it
and ends with an empty listing, and distinguishes it from every other
error kind (any other error makes the caller fail instead). -/
theorem lister_dir_not_found (st : RemoteState) (path : String)
    (h : path ∉ st.dirs) :
    listerGetAll st path = .error .dirNotFound ∧
    readRemote st path = some [] ∧
    (∀ e : ErrKind, e ≠ .dirNotFound → readRemoteOfResult (.error e) = none) := by
  have hl : listerGetAll st path = .error .dirNotFound := by
    simp [listerGetAll, h]
  refine ⟨hl, ?_, ?_⟩
  · simp [readRemote, readRemoteOfResult, hl]
  · intro e he
    cases e <;> simp_all [readRemoteOfResult]

/-- Witness for C6: a remote with only directory `a`, listed at `b`. -/
theorem lister_dir_not_found_witness :
    ("b" ∉ (⟨["a"], []⟩ : RemoteState).dirs) ∧
    (listerGetAll ⟨["a"], []⟩ "b" = .error .dirNotFound ∧
      readRemote ⟨["a"], []⟩ "b" = some [] ∧
      (∀ e : ErrKind, e ≠ .dirNotFound → readRemoteOfResult (.error e) = none)) :=
  ⟨by decide, lister_dir_not_found ⟨["a"], []⟩ "b" (by decide)⟩

/-! ## Root CA installation at startup (src/rclone.go `main`, lines 17–22)

The entrypoint creates a fresh empty certificate pool with
`x509.NewCertPool()`; when `/etc/cacert.crt` reads successfully it appends
the PEM's certificates to that fresh pool and assigns the pool as
`RootCAs`, so the installed trust store holds exactly the PEM's
certificates.  When the read fails, nothing is assigned. -/

/-- The trust store after `main`'s startup sequence, from src/rclone.go
lines 17–22: `pemData` is the PEM read result (`none` when the file is
absent) and `existing` the trust store before startup.  On a successful
read the fresh pool — holding only the PEM's certificates — replaces the
store; on a failed read the store is untouched. -/
def installRootCAs (pemData : Option (List String)) (existing : List String) :
    List String :=
  match pemData with
  | some pemCerts => pemCerts
  | none => existing

/-- Counterexample to C7 as stated: with a previously trusted certificate
`old` and a PEM file holding `new`, the store after startup is `[new]` —
the previously trusted certificate is no longer trusted, so the PEM is
not appended to the existing store. -/
theorem root_ca_replace_cex :
    "old" ∉ installRootCAs (some ["new"]) ["old"] := by
  decide

/-- C7 (amended): when the PEM file is present the trust store is
replaced by a fresh pool holding exactly the file's certificates
(previously trusted certificates are dropped); when the file is absent
startup proceeds with the trust store unchanged. -/
theorem root_ca_override_amended (pemCerts existing : List String) :
    installRootCAs (some pemCerts) existing = pemCerts ∧
    installRootCAs none existing = existing :=
  ⟨rfl, rfl⟩

/-! ## Process exit code (src/rclone.go `main`, lines 23–25)

`main` runs `cmd.Root.Execute()`; on a `nil` error it returns (exit
status 0) and on any error it calls `log.Fatalf`, which exits with
status 1 regardless of the error's kind. -/

/-- The severities the spec's §6 exit-code table distinguishes. -/
inductive RunSeverity
  | success
  | genericFailure
  | usageError
  | dirNotFound
  | fileNotFound
  | temporaryError
  | lessSerious
deriving DecidableEq, Repr

/-- Modelled from the spec: the §6 exit-code mapping — 0 success, 1
generic failure, 2 usage error, 3 directory-not-found, 4 file-not-found,
5 temporary error, 6 less serious errors. -/
def specExitCode : RunSeverity → Nat
  | .success => 0
  | .genericFailure => 1
  | .usageError => 2
  | .dirNotFound => 3
  | .fileNotFound => 4
  | .temporaryError => 5
  | .lessSerious => 6

/-- The exit code `main` actually produces (src/rclone.go lines 23–25):
0 when `Execute` succeeds, and 1 — via `log.Fatalf` — on any error,
whatever severity the error carries. -/
def mainExitCode : Except RunSeverity Unit → Nat
  | .ok _ => 0
  | .error _ => 1

/-- Counterexample to C8 as stated: a run whose highest severity is
directory-not-found exits through `log.Fatalf` with code 1, not the
spec's code 3. -/
theorem exit_code_cex :
    mainExitCode (.error RunSeverity.dirNotFound) = 1 ∧
    specExitCode RunSeverity.dirNotFound = 3 ∧
    mainExitCode (.error RunSeverity.dirNotFound) ≠
      specExitCode RunSeverity.dirNotFound := by
  exact ⟨rfl, rfl, by decide⟩

/-- C8 (amended): the process exit code is 0 when `Execute` succeeds and
1 on any error, irrespective of the error's severity; it agrees with the
spec's §6 severity table exactly when the severity is a generic
failure. -/
theorem exit_code_amended :
    mainExitCode (.ok ()) = 0 ∧
    (∀ e : RunSeverity, mainExitCode (.error e) = 1) ∧
    (∀ e : RunSeverity,
      mainExitCode (.error e) = specExitCode e ↔ e = RunSeverity.genericFailure) := by
  refine ⟨rfl, fun e => rfl, fun e => ?_⟩
  cases e <;> simp [mainExitCode, specExitCode]

/-! ## The dedupe subcommand (src/unnamed/part_001) -/

/-- The dedupe modes (spec §4.6; the flag help in src/unnamed/part_001
line 17 lists `interactive|skip|first|newest|oldest|rename`). -/
inductive DeduplicateMode
  | interactive
  | skip
  | first
  | newest
  | oldest
  | rename
deriving DecidableEq, Repr

/-- The six valid mode names accepted by `--dedupe-mode` and the optional
positional mode argument. -/
def validModeNames : List String :=
  ["interactive", "skip", "first", "newest", "oldest", "rename"]

/-- Modelled from the spec: the missing `fs.DeduplicateMode.Set` — parse
a mode name, failing on anything outside the six valid names. -/
def DeduplicateMode.set (s : String) : Option DeduplicateMode :=
  if s = "interactive" then some .interactive
  else if s = "skip" then some .skip
  else if s = "first" then some .first
  else if s = "newest" then some .newest
  else if s = "oldest" then some .oldest
  else if s = "rename" then some .rename
  else none

/-- The default of the `dedupeMode` flag variable (src/unnamed/part_001
lines 11–13: `dedupeMode = fs.DeduplicateInteractive`). -/
def dedupeModeDefault : DeduplicateMode := DeduplicateMode.interactive

/-- How an invocation of the dedupe subcommand's `Run` ends. -/
inductive DedupeRunResult
  | usageError
  | fatal
  | ran (remote : String) (mode : DeduplicateMode)
deriving DecidableEq, Repr

/-- The `Run` function of the dedupe command (src/unnamed/part_001 lines
99–112): `cmd.CheckArgs(1, 2, …)` rejects other arities; with two
arguments the first is parsed by `dedupeMode.Set` and a parse error hits
`log.Fatal` before `fs.Deduplicate` is reached; otherwise
`fs.Deduplicate` runs on the remote with the selected mode.
(`cmd.CheckArgs` and `Set` themselves are modelled from the spec.) -/
def dedupeCommandRun (dedupeMode : DeduplicateMode) (args : List String) :
    DedupeRunResult :=
  match args with
  | [remote] => .ran remote dedupeMode
  | [m, remote] =>
    match DeduplicateMode.set m with
    | none => .fatal
    | some md => .ran remote md
  | _ => .usageError

/-- `set` succeeds exactly on the six valid mode names. -/
theorem set_eq_none_of_not_valid (m : String) (h : m ∉ validModeNames) :
    DeduplicateMode.set m = none := by
  simp only [validModeNames, List.mem_cons, List.not_mem_nil, or_false,
    not_or] at h
  obtain ⟨h1, h2, h3, h4, h5, h6⟩ := h
  simp [DeduplicateMode.set, h1, h2, h3, h4, h5, h6]

/-- C9: invoking dedupe with two arguments whose first is not one of the
six valid mode names terminates fatally during argument parsing, whatever
the current flag value; `fs.Deduplicate` is never invoked, so the remote
is left unchanged. -/
theorem dedupe_invalid_mode_fatal (dedupeMode : DeduplicateMode)
    (m remote : String) (h : m ∉ validModeNames) :
    dedupeCommandRun dedupeMode [m, remote] = .fatal ∧
    (∀ (r : String) (md : DeduplicateMode),
      dedupeCommandRun dedupeMode [m, remote] ≠ .ran r md) := by
  have hset := set_eq_none_of_not_valid m h
  constructor
  · simp [dedupeCommandRun, hset]
  · intro r md
    simp [dedupeCommandRun, hset]

/-- Witness for C9: `rclone dedupe bogus remote:path` is fatal. -/
theorem dedupe_invalid_mode_fatal_witness :
    ("bogus" ∉ validModeNames) ∧
    (dedupeCommandRun dedupeModeDefault ["bogus", "remote:path"] = .fatal ∧
      (∀ (r : String) (md : DeduplicateMode),
        dedupeCommandRun dedupeModeDefault ["bogus", "remote:path"] ≠ .ran r md)) :=
  ⟨by decide,
    dedupe_invalid_mode_fatal dedupeModeDefault "bogus" "remote:path" (by decide)⟩

/-- C10: invoking dedupe with only a remote argument and the flag left at
its default runs `fs.Deduplicate` on that remote with the interactive
mode. -/
theorem dedupe_default_interactive (remote : String) :
    dedupeCommandRun dedupeModeDefault [remote] =
      .ran remote DeduplicateMode.interactive ∧
    dedupeModeDefault = DeduplicateMode.interactive :=
  ⟨rfl, rfl⟩

end Rclone
